import Mathlib

/-!
Verification development for the trade-aggregation and performance-metrics
engine of the AI Trading Analyst backend (`src/main.py`).

The core under study is `compute_metrics` (main.py lines 157-207) together
with the forecast part of `ai_insights` (lines 240-250).  Trade records are
loosely-typed documents, so we embed Python values with an inductive
`PyVal` and model each record as a `PyTrade` whose fields may be absent
(`Option.none` models a missing dictionary key).  Rational numbers stand
for Python floats (exact-arithmetic idealisation); `Real.sqrt` models
`** 0.5`; fallible Python expressions return `Except Unit`.

Presentation-level rounding (`round(x, 4)` / `round(x, 2)` at main.py lines
199-203 and 243) is omitted: per the specification (section 4.2) rounding is
"a presentation concern, not part of the invariant; internal computation
must use full precision before rounding", and the claims cite the
pre-rounding computation lines.
-/

namespace TradingAnalyst

/-- A (restricted) Python runtime value: `None`, a number (int/float modelled
as an exact rational), or a string.  These are the shapes relevant to the
fields `compute_metrics` reads. -/
inductive PyVal where
  | none : PyVal
  | num (q : ℚ) : PyVal
  | str (s : String) : PyVal
deriving DecidableEq

/-- Python truthiness test (`bool(v)` is `False`) for the embedded values:
`None`, `0`, `0.0` and `""` are falsy. -/
def pyFalsy : PyVal → Bool
  | PyVal.none => true
  | PyVal.num q => q = 0
  | PyVal.str s => s = ""

/-- Models the Python idiom `v or 0` used at main.py lines 167-168: a falsy
value is replaced by `0`. -/
def pyOrZero (v : PyVal) : PyVal :=
  if pyFalsy v then PyVal.num 0 else v

/-- Digit list to natural number (most significant first). -/
def digitsToNat (cs : List Char) : ℕ :=
  cs.foldl (fun n c => n * 10 + (c.toNat - 48)) 0

/-- Models Python's `float(s)` on a string argument, restricted to plain
decimal literals (optional sign, digits, optional fractional part).
Returns `Option.none` when `float` would raise `ValueError`.  Python also
accepts exponents, `inf`/`nan`, underscores and surrounding whitespace;
those extensions are outside the subset exercised here. -/
def parseFloatLit (s : String) : Option ℚ :=
  let cs := s.data
  let (sgn, cs) : ℚ × List Char :=
    match cs with
    | '-' :: t => (-1, t)
    | '+' :: t => (1, t)
    | _ => (1, cs)
  let ip := cs.takeWhile (fun c => c ≠ '.')
  let rest := cs.dropWhile (fun c => c ≠ '.')
  match rest with
  | [] =>
      if ip ≠ [] ∧ ip.all Char.isDigit then some (sgn * digitsToNat ip) else Option.none
  | '.' :: fp =>
      if (ip ≠ [] ∨ fp ≠ []) ∧ ip.all Char.isDigit ∧ fp.all Char.isDigit then
        some (sgn * ((digitsToNat ip : ℚ) + (digitsToNat fp : ℚ) / 10 ^ fp.length))
      else Option.none
  | _ => Option.none

/-- Models Python's `float(v)` on an embedded value: numbers pass through,
numeric-literal strings parse, everything else raises (`Except.error`). -/
def pyFloat : PyVal → Except Unit ℚ
  | PyVal.num q => Except.ok q
  | PyVal.str s =>
      match parseFloatLit s with
      | some q => Except.ok q
      | Option.none => Except.error ()
  | PyVal.none => Except.error ()

/-- ASCII lower-casing of one character, modelling Python `str.lower` on the
ASCII range (the only strings compared by the engine are side values such
as `"buy"`/`"sell"`). -/
def pyCharLower (c : Char) : Char :=
  if 65 ≤ c.toNat ∧ c.toNat ≤ 90 then Char.ofNat (c.toNat + 32) else c

/-- Models Python's `s.lower()` (ASCII subset). -/
def pyLower (s : String) : String :=
  ⟨s.data.map pyCharLower⟩

/-- Models `v.lower()` on an embedded value: only strings have the `lower`
attribute; any other value raises `AttributeError`. -/
def pyStrLower : PyVal → Except Unit String
  | PyVal.str s => Except.ok (pyLower s)
  | _ => Except.error ()

/-- Models `ts.replace("Z", "+00:00")` (main.py line 163): every occurrence
of the single character `Z` is replaced by the string `+00:00`. -/
def replaceZ (s : String) : String :=
  ⟨(s.data.map (fun c => if c = 'Z' then "+00:00".data else [c])).flatten⟩

/-! ### Calendar dates and ISO parsing

`datetime.fromisoformat` is an external library call; we model exactly the
part of its behaviour `compute_metrics` depends on: whether a string parses,
and the calendar date extracted from it (`dt.date().isoformat()` re-renders
the date zero-padded, which for a parseable input equals its first ten
characters). -/

/-- Gregorian leap-year test. -/
def isLeap (y : ℕ) : Bool :=
  (y % 4 = 0 ∧ y % 100 ≠ 0) ∨ y % 400 = 0

/-- Days in a month of a given year. -/
def daysInMonth (y m : ℕ) : ℕ :=
  if m = 1 ∨ m = 3 ∨ m = 5 ∨ m = 7 ∨ m = 8 ∨ m = 10 ∨ m = 12 then 31
  else if m = 4 ∨ m = 6 ∨ m = 9 ∨ m = 11 then 30
  else if isLeap y then 29
  else 28

/-- A calendar date as a `(year, month, day)` triple. -/
abbrev Date := ℕ × ℕ × ℕ

/-- Validity of a date, matching `datetime.date`'s constraints
(`MINYEAR = 1`, `MAXYEAR = 9999`). -/
def validDate (t : Date) : Bool :=
  1 ≤ t.1 ∧ t.1 ≤ 9999 ∧ 1 ≤ t.2.1 ∧ t.2.1 ≤ 12 ∧ 1 ≤ t.2.2 ∧
    t.2.2 ≤ daysInMonth t.1 t.2.1

/-- The digit character for `k < 10`. -/
def digitChar (k : ℕ) : Char := Char.ofNat (48 + k)

/-- Four-digit zero-padded rendering (year). -/
def pad4 (n : ℕ) : List Char :=
  [digitChar (n / 1000 % 10), digitChar (n / 100 % 10),
   digitChar (n / 10 % 10), digitChar (n % 10)]

/-- Two-digit zero-padded rendering (month, day). -/
def pad2 (n : ℕ) : List Char :=
  [digitChar (n / 10 % 10), digitChar (n % 10)]

/-- Canonical ISO rendering `YYYY-MM-DD` of a date, modelling
`date.isoformat()`. -/
def dateToIso (t : Date) : String :=
  ⟨pad4 t.1 ++ '-' :: (pad2 t.2.1 ++ '-' :: pad2 t.2.2)⟩

/-- Parse exactly ten characters `YYYY-MM-DD` into a valid date. -/
def parseIsoDateChars : List Char → Option Date
  | [y1, y2, y3, y4, c1, m1, m2, c2, d1, d2] =>
      if c1 = '-' ∧ c2 = '-' ∧
          [y1, y2, y3, y4, m1, m2, d1, d2].all Char.isDigit then
        if validDate (digitsToNat [y1, y2, y3, y4],
            digitsToNat [m1, m2], digitsToNat [d1, d2]) then
          some (digitsToNat [y1, y2, y3, y4],
            digitsToNat [m1, m2], digitsToNat [d1, d2])
        else Option.none
      else Option.none
  | _ => Option.none

/-- UTC-offset suffix validator (`+HH:MM` / `-HH:MM`, or nothing). -/
def validOffset : List Char → Bool
  | [] => true
  | c :: t =>
      (c == '+' || c == '-') &&
        match t with
        | [h1, h2, ':', m1, m2] =>
            [h1, h2, m1, m2].all Char.isDigit &&
              decide (digitsToNat [h1, h2] < 24) && decide (digitsToNat [m1, m2] < 60)
        | _ => false

/-- Fractional-seconds part (Python accepts exactly 3 or 6 digits),
followed by an optional offset. -/
def validFracPart : List Char → Bool
  | '.' :: rest =>
      let fs := rest.takeWhile Char.isDigit
      (fs.length == 3 || fs.length == 6) && validOffset (rest.drop fs.length)
  | rest => validOffset rest

/-- Seconds part `:SS` (optional), then fraction and offset. -/
def validSecPart : List Char → Bool
  | ':' :: s1 :: s2 :: rest =>
      [s1, s2].all Char.isDigit && decide (digitsToNat [s1, s2] < 60) && validFracPart rest
  | rest => validOffset rest

/-- Time-of-day validator `HH:MM[:SS[.fff[fff]]][±HH:MM]`. -/
def validTime : List Char → Bool
  | h1 :: h2 :: ':' :: m1 :: m2 :: rest =>
      [h1, h2, m1, m2].all Char.isDigit && decide (digitsToNat [h1, h2] < 24) &&
        decide (digitsToNat [m1, m2] < 60) && validSecPart rest
  | _ => false

/-- After the ten date characters: either nothing, or one separator
character followed by a valid time (pre-3.11 `fromisoformat` accepts an
arbitrary separator character). -/
def validTimeRest : List Char → Bool
  | [] => true
  | _ :: t => validTime t

/-- Models `datetime.fromisoformat(s).date().isoformat()` (main.py lines
163-166): parse the leading `YYYY-MM-DD`, validate any time suffix, and
return the canonical date string; `Option.none` models a raised
`ValueError` (restricted to the classic `fromisoformat` grammar). -/
def pyFromisoDay (s : String) : Option String :=
  match parseIsoDateChars (s.data.take 10) with
  | some t => if validTimeRest (s.data.drop 10) then some (dateToIso t) else Option.none
  | Option.none => Option.none

/-! ### Trade records and the per-trade step -/

/-- A trade document as read back from the store: each field of interest may
be absent (`Option.none` models a missing dictionary key).  Fields
`compute_metrics` never reads (`symbol`, `asset_type`, `fees`, `notes`,
`user_id`) are omitted. -/
structure PyTrade where
  timestamp : Option PyVal
  quantity : Option PyVal
  price : Option PyVal
  side : Option PyVal
deriving DecidableEq

/-- The guarded timestamp handling of main.py lines 161-166: `t.get("timestamp")`,
then `datetime.fromisoformat(ts.replace("Z", "+00:00"))` inside `try`, any
exception (missing key, non-string value, parse failure) yielding a skip
(`Option.none`); on success the bucket key `dt.date().isoformat()`. -/
def tryParseDay : Option PyVal → Option String
  | some (PyVal.str s) => pyFromisoDay (replaceZ s)
  | _ => Option.none

/-- One iteration of the aggregation loop body (main.py lines 160-172) up to
the bucket update: `Except.error` models an uncaught exception escaping
`compute_metrics`, `Except.ok Option.none` models `continue` (skipped trade),
and `Except.ok (some (day, notional))` the bucket contribution. -/
def stepT (t : PyTrade) : Except Unit (Option (String × ℚ)) :=
  match tryParseDay t.timestamp with
  | Option.none => Except.ok Option.none
  | some day =>
      match pyFloat (pyOrZero (t.quantity.getD (PyVal.num 0))) with
      | Except.error e => Except.error e
      | Except.ok qty =>
          match pyFloat (pyOrZero (t.price.getD (PyVal.num 0))) with
          | Except.error e => Except.error e
          | Except.ok price =>
              match pyStrLower (t.side.getD (PyVal.str "buy")) with
              | Except.error e => Except.error e
              | Except.ok side =>
                  Except.ok (some (day, price * qty * (if side = "buy" then 1 else -1)))

/-! ### The daily dictionary -/

/-- `d.get(k, 0.0)`: the value stored at key `k`, defaulting to `0`.  The
Python dict is modelled as an insertion-ordered association list. -/
def dictGet : List (String × ℚ) → String → ℚ
  | [], _ => 0
  | (k', v) :: rest, k => if k' = k then v else dictGet rest k

/-- `daily[day] = daily.get(day, 0.0) + notional` (main.py line 172): add to
an existing key in place, or append a new key (whose previous value is the
default `0`). -/
def insertAdd : List (String × ℚ) → String → ℚ → List (String × ℚ)
  | [], k, v => [(k, v)]
  | (k', v') :: rest, k, v =>
      if k' = k then (k', v' + v) :: rest else (k', v') :: insertAdd rest k v

/-- The aggregation loop of main.py lines 159-172, threading the dictionary:
an exception in any iteration aborts the whole computation. -/
def buildAux : List PyTrade → List (String × ℚ) → Except Unit (List (String × ℚ))
  | [], d => Except.ok d
  | t :: ts, d =>
      match stepT t with
      | Except.error e => Except.error e
      | Except.ok Option.none => buildAux ts d
      | Except.ok (some (k, v)) => buildAux ts (insertAdd d k v)

/-- The daily-P&L dictionary computed from the trade list. -/
def buildDailyPy (ts : List PyTrade) : Except Unit (List (String × ℚ)) :=
  buildAux ts []

/-- `days = sorted(daily.keys())` (main.py line 174). -/
def daysOf (d : List (String × ℚ)) : List String :=
  List.insertionSort (· ≤ ·) (d.map Prod.fst)

/-- `pnl_series = [daily[d] for d in days]` (main.py line 175). -/
def seriesOf (d : List (String × ℚ)) : List ℚ :=
  (daysOf d).map (dictGet d)

/-! ### Statistics on the daily P&L series (main.py lines 177-196) -/

/-- `total_return = sum(pnl_series)` (line 177). -/
def totalReturn (l : List ℚ) : ℚ := l.sum

/-- `wins = sum(1 for v in pnl_series if v > 0)` (line 178). -/
def winsOf (l : List ℚ) : ℕ := l.countP (fun v => decide (0 < v))

/-- `win_rate = (wins / len(pnl_series) * 100.0) if pnl_series else 0.0`
(line 179). -/
def winRate (l : List ℚ) : ℚ :=
  if l = [] then 0 else (winsOf l : ℚ) / (l.length : ℚ) * 100

/-- `mean = (total_return / len(pnl_series)) if pnl_series else 0.0`
(line 181). -/
def meanOf (l : List ℚ) : ℚ :=
  if l = [] then 0 else totalReturn l / (l.length : ℚ)

/-- `variance = (sum((v - mean) ** 2 for v in pnl_series) / (len(pnl_series) - 1))
if len(pnl_series) > 1 else 0.0` (line 182). -/
def varianceOf (l : List ℚ) : ℚ :=
  if 1 < l.length then
    (l.map (fun v => (v - meanOf l) ^ 2)).sum / ((l.length - 1 : ℕ) : ℚ)
  else 0

/-- `std = variance ** 0.5` (line 183); `** 0.5` on a non-negative float is
the square root. -/
noncomputable def stdOf (l : List ℚ) : ℝ := Real.sqrt ((varianceOf l : ℚ) : ℝ)

/-- The literal `1e-9` of main.py line 184, idealised as the exact rational
`10⁻⁹`. -/
noncomputable def epsSharpe : ℝ := 1 / 10 ^ 9

/-- `sharpe = (mean / std) if std > 1e-9 else 0.0` (line 184). -/
noncomputable def sharpeOf (l : List ℚ) : ℝ :=
  if epsSharpe < stdOf l then ((meanOf l : ℚ) : ℝ) / stdOf l else 0

/-- One iteration of the drawdown loop (main.py lines 190-196) on the state
`(cum, peak, max_dd)`; `peak = Option.none` models the initial
`float('-inf')`, which every real number exceeds. -/
def mddStep (s : ℚ × Option ℚ × ℚ) (v : ℚ) : ℚ × Option ℚ × ℚ :=
  let cum := s.1 + v
  let peak : ℚ :=
    match s.2.1 with
    | Option.none => cum
    | some p => if p < cum then cum else p
  let dd := peak - cum
  let mdd := if s.2.2 < dd then dd else s.2.2
  (cum, some peak, mdd)

/-- `max_dd` after the loop of main.py lines 186-196, starting from
`cum = 0.0`, `peak = float('-inf')`, `max_dd = 0.0`. -/
def maxDrawdownOf (l : List ℚ) : ℚ :=
  (l.foldl mddStep (0, Option.none, 0)).2.2

/-- The metrics summary assembled at main.py lines 198-204 (presentation
rounding omitted, see the file header). -/
structure Metrics where
  total_return : ℚ
  win_rate : ℚ
  volatility : ℝ
  sharpe : ℝ
  max_drawdown : ℚ

/-- The metrics summary as a function of the daily P&L series. -/
noncomputable def metricsOfSeries (l : List ℚ) : Metrics :=
  { total_return := totalReturn l
    win_rate := winRate l
    volatility := stdOf l
    sharpe := sharpeOf l
    max_drawdown := maxDrawdownOf l }

/-- The metrics summary computed from the daily dictionary. -/
noncomputable def metricsOfDict (d : List (String × ℚ)) : Metrics :=
  metricsOfSeries (seriesOf d)

/-- `daily_list = [{"timestamp": d, "pnl": daily[d]} for d in days]`
(main.py line 206), each point as a `(timestamp, pnl)` pair. -/
def dailyListOf (d : List (String × ℚ)) : List (String × ℚ) :=
  (daysOf d).map (fun k => (k, dictGet d k))

/-- `compute_metrics` (main.py lines 157-207): the aggregation loop may
raise (`Except.error`); on success the metrics summary and daily list are
pure functions of the resulting dictionary. -/
noncomputable def computeMetricsPy (ts : List PyTrade) :
    Except Unit (Metrics × List (String × ℚ)) :=
  (buildDailyPy ts).map (fun d => (metricsOfDict d, dailyListOf d))

/-! ### Well-shaped trade records

Records produced by the ingestion endpoint (main.py lines 136-149) always
carry a string timestamp, numeric quantity and price, and a string side;
`Trade` is that well-shaped restriction and `Trade.toPy` its inclusion into
the loose document shape. -/

structure Trade where
  timestamp : String
  quantity : ℚ
  price : ℚ
  side : String
deriving DecidableEq

/-- View a well-shaped trade as a loose document. -/
def Trade.toPy (t : Trade) : PyTrade :=
  { timestamp := some (PyVal.str t.timestamp)
    quantity := some (PyVal.num t.quantity)
    price := some (PyVal.num t.price)
    side := some (PyVal.str t.side) }

/-- A well-shaped trade's bucket contribution: skipped when its timestamp
does not parse, otherwise `(day, price * qty * sign)` with the buy/sell sign
of main.py lines 169-171. -/
def tradeContrib (t : Trade) : Option (String × ℚ) :=
  match pyFromisoDay (replaceZ t.timestamp) with
  | Option.none => Option.none
  | some day =>
      some (day, t.price * t.quantity * (if pyLower t.side = "buy" then 1 else -1))

/-- The aggregation loop restricted to well-shaped trades (never raises). -/
def buildAuxT : List Trade → List (String × ℚ) → List (String × ℚ)
  | [], d => d
  | t :: ts, d =>
      match tradeContrib t with
      | Option.none => buildAuxT ts d
      | some (k, v) => buildAuxT ts (insertAdd d k v)

/-- The daily-P&L dictionary of a well-shaped trade list. -/
def buildDailyT (ts : List Trade) : List (String × ℚ) :=
  buildAuxT ts []

/-- `compute_metrics` on well-shaped trades. -/
noncomputable def computeMetricsT (ts : List Trade) : Metrics × List (String × ℚ) :=
  (metricsOfDict (buildDailyT ts), dailyListOf (buildDailyT ts))

/-! ### Forecast and insight message (ai_insights, main.py lines 240-250) -/

/-- `last = [d["pnl"] for d in daily[-3:]]` (line 242): the P&L values of
the last `min(3, len(daily))` points. -/
def lastSlice3 (daily : List (String × ℚ)) : List ℚ :=
  (daily.drop (daily.length - 3)).map Prod.snd

/-- `forecast = round(sum(last) / len(last), 4) if last else None`
(line 243), presentation rounding omitted. -/
def forecastOf (daily : List (String × ℚ)) : Option ℚ :=
  if lastSlice3 daily = [] then Option.none
  else some ((lastSlice3 daily).sum / ((lastSlice3 daily).length : ℚ))

/-- The insight message of main.py lines 245-250.  Python's float-to-string
formatting (`{...}` interpolation and `:.2f`) is abstracted: the rendered
numerals arrive as the string parameters `wrS`, `sS`, `mddS`, `fS`. -/
def insightMessage (wrS sS mddS fS : String) (forecast : Option ℚ) : String :=
  "Your win rate is " ++ wrS ++ "%. " ++ "Estimated Sharpe " ++ sS ++ ". " ++
    "Max drawdown observed " ++ mddS ++ ". " ++
    (match forecast with
     | some _ => "Model projects next-day PnL around " ++ fS ++ "."
     | Option.none => "Insufficient data for projection.")

/-- The amount one document adds to the bucket keyed `k` (zero when the
record is skipped or would raise). -/
def contribToPy (k : String) (t : PyTrade) : ℚ :=
  match stepT t with
  | Except.ok (some (k', v)) => if k' = k then v else 0
  | _ => 0

/-- The notional one document adds to its own bucket. -/
def contribValPy (t : PyTrade) : ℚ :=
  match stepT t with
  | Except.ok (some (_, v)) => v
  | _ => 0

/-- The per-trade bucket contribution to the date key `k`, written out as
the specification describes it: `price × quantity × sign`, with sign `+1`
exactly when the lower-cased side is `"buy"`, and `0` for trades whose
timestamp does not parse or that belong to another date. -/
def contribTo (k : String) (t : Trade) : ℚ :=
  match pyFromisoDay (replaceZ t.timestamp) with
  | some day =>
      if day = k then t.price * t.quantity * (if pyLower t.side = "buy" then 1 else -1)
      else 0
  | Option.none => 0

/-- The notional a well-shaped trade contributes to its own date bucket. -/
def contribVal (t : Trade) : ℚ :=
  match tradeContrib t with
  | some (_, v) => v
  | Option.none => 0

/-- Running cumulative sums continuing from `c`. -/
def cumsFrom (c : ℚ) : List ℚ → List ℚ
  | [] => []
  | v :: vs => (c + v) :: cumsFrom (c + v) vs

/-- The cumulative P&L series: the value of `cum` after each loop
iteration of main.py lines 190-196. -/
def cums (l : List ℚ) : List ℚ := cumsFrom 0 l

/-- Running maxima continuing from `p`. -/
def pmAux (p : ℚ) : List ℚ → List ℚ
  | [] => []
  | c :: cs => max p c :: pmAux (max p c) cs

/-- The running-peak series: its first element is the first value itself
(the first cumulative value becomes the first peak), thereafter the
running maximum. -/
def prefixMaxes : List ℚ → List ℚ
  | [] => []
  | c :: cs => c :: pmAux c cs

/-- The per-step drawdowns `peak - cum` continuing from cumulative `c`
and peak `p`. -/
def ddsFrom (c p : ℚ) : List ℚ → List ℚ
  | [] => []
  | v :: vs => (max p (c + v) - (c + v)) :: ddsFrom (c + v) (max p (c + v)) vs

/-- Chronological (lexicographic) order on date triples. -/
def dateLt (a b : Date) : Prop :=
  a.1 < b.1 ∨ (a.1 = b.1 ∧ (a.2.1 < b.2.1 ∨ (a.2.1 = b.2.1 ∧ a.2.2 < b.2.2)))

/-- A quantity/price field value on which `float(... or 0)` cannot raise:
anything except a non-empty string that is not a numeric literal. -/
def BenignVal : Option PyVal → Bool
  | some (PyVal.str s) => (s = "") || (parseFloatLit s).isSome
  | _ => true

/-- A side field value on which `(...).lower()` cannot raise: absent, or a
string. -/
def BenignSide : Option PyVal → Bool
  | some (PyVal.num _) => false
  | some PyVal.none => false
  | _ => true

/-- A record the aggregation loop can process without raising. -/
def Benign (t : PyTrade) : Bool :=
  BenignVal t.quantity && BenignVal t.price && BenignSide t.side

/-- The coerced numeric value of a quantity/price field
(`float(t.get(..., 0) or 0)`), as a total function on benign values. -/
def pyNum (ov : Option PyVal) : ℚ :=
  match pyFloat (pyOrZero (ov.getD (PyVal.num 0))) with
  | Except.ok q => q
  | Except.error _ => 0

/-- The coerced side string (`(t.get("side", "buy")).lower()`), as a total
function on benign values. -/
def pySide (ov : Option PyVal) : String :=
  match pyStrLower (ov.getD (PyVal.str "buy")) with
  | Except.ok s => s
  | Except.error _ => ""

/-- The notional a record contributes to the aggregate, written as the
specification describes it: zero when its timestamp fails to parse
(skipped), otherwise `price × quantity × sign` over the coerced fields. -/
def pyContribSpec (t : PyTrade) : ℚ :=
  match tryParseDay t.timestamp with
  | Option.none => 0
  | some _ =>
      pyNum t.price * pyNum t.quantity * (if pySide t.side = "buy" then 1 else -1)

/-! ### Concrete scenario inputs -/

/-- Scenario A of the specification: two same-day trades,
buy 10 @ 100 and sell 10 @ 110. -/
def scenarioA : List Trade :=
  [⟨"2024-01-01", 10, 100, "buy"⟩, ⟨"2024-01-01", 10, 110, "sell"⟩]

/-- Scenario B of the specification: three buys on consecutive days at
prices 100, 105, 98, quantity 1. -/
def scenarioB : List Trade :=
  [⟨"2024-01-01", 1, 100, "buy"⟩, ⟨"2024-01-02", 1, 105, "buy"⟩,
   ⟨"2024-01-03", 1, 98, "buy"⟩]

/-- Three one-unit buys at prices 0, 10⁻⁹, 2·10⁻⁹ on consecutive days:
the daily series has sample variance 10⁻¹⁸, so the volatility is exactly
the epsilon 10⁻⁹ of the sharpe guard. -/
def boundaryTrades : List Trade :=
  [⟨"2024-01-01", 1, 0, "buy"⟩, ⟨"2024-01-02", 1, 1 / 10 ^ 9, "buy"⟩,
   ⟨"2024-01-03", 1, 2 / 10 ^ 9, "buy"⟩]

/-- Two equal-notional buys on two different days: a two-point daily
series with zero variance. -/
def constantTrades : List Trade :=
  [⟨"2024-01-01", 1, 100, "buy"⟩, ⟨"2024-01-02", 1, 100, "buy"⟩]

/-- A single sell trade: a one-point daily series with no positive point. -/
def sellOnly : List Trade := [⟨"2024-01-01", 10, 100, "sell"⟩]

/-- Three one-unit buys at prices 0, 2, 4 on consecutive days: the daily
series has sample variance 4, hence volatility 2 and sharpe 1. -/
def sharpePosTrades : List Trade :=
  [⟨"2024-01-01", 1, 0, "buy"⟩, ⟨"2024-01-02", 1, 2, "buy"⟩,
   ⟨"2024-01-03", 1, 4, "buy"⟩]

/-- A benign loose-document sample: a well-shaped buy, a record with an
unparseable timestamp (skipped), and a record with every field missing
(also skipped, since `t.get("timestamp")` is `None`). -/
def benignSample : List PyTrade :=
  [⟨some (PyVal.str "2024-01-05"), some (PyVal.num 2), some (PyVal.num 3),
      some (PyVal.str "buy")⟩,
   ⟨some (PyVal.str "garbage"), some (PyVal.num 5), some (PyVal.num 7),
      some (PyVal.str "sell")⟩,
   ⟨Option.none, Option.none, Option.none, Option.none⟩]

/-! ### Dictionary lemmas -/

theorem dictGet_insertAdd (d : List (String × ℚ)) (k k' : String) (v : ℚ) :
    dictGet (insertAdd d k v) k' = dictGet d k' + if k = k' then v else 0 := by
  induction d with
  | nil => by_cases h : k = k' <;> simp [insertAdd, dictGet, h]
  | cons a rest ih =>
      obtain ⟨a1, a2⟩ := a
      by_cases h1 : a1 = k
      · subst h1
        by_cases h2 : a1 = k' <;> simp [insertAdd, dictGet, h2]
      · by_cases h2 : a1 = k'
        · subst h2
          have hk : ¬ k = a1 := fun h => h1 h.symm
          simp [insertAdd, dictGet, h1, hk]
        · simp [insertAdd, dictGet, h1, h2, ih]

theorem map_fst_insertAdd (d : List (String × ℚ)) (k : String) (v : ℚ) :
    (insertAdd d k v).map Prod.fst =
      if k ∈ d.map Prod.fst then d.map Prod.fst else d.map Prod.fst ++ [k] := by
  induction d with
  | nil => simp [insertAdd]
  | cons a rest ih =>
      obtain ⟨a1, a2⟩ := a
      by_cases h1 : a1 = k
      · subst h1
        simp [insertAdd]
      · have hk : ¬ k = a1 := fun h => h1 h.symm
        by_cases h2 : k ∈ rest.map Prod.fst <;> simp [insertAdd, h1, hk, h2, ih]

theorem mem_map_fst_insertAdd (d : List (String × ℚ)) (k k' : String) (v : ℚ) :
    k' ∈ (insertAdd d k v).map Prod.fst ↔ k' ∈ d.map Prod.fst ∨ k' = k := by
  rw [map_fst_insertAdd]
  by_cases h : k ∈ d.map Prod.fst
  · simp only [h, if_true]
    constructor
    · exact fun hm => Or.inl hm
    · rintro (hm | rfl)
      · exact hm
      · exact h
  · simp [h]

theorem nodup_map_fst_insertAdd (d : List (String × ℚ)) (k : String) (v : ℚ)
    (hd : (d.map Prod.fst).Nodup) : ((insertAdd d k v).map Prod.fst).Nodup := by
  rw [map_fst_insertAdd]
  by_cases h : k ∈ d.map Prod.fst
  · simpa [h] using hd
  · simp only [h, if_false]
    rw [List.nodup_append]
    refine ⟨hd, List.nodup_singleton k, fun a ha hb => ?_⟩
    have hak : a = k := by simpa using hb
    exact h (hak ▸ ha)

theorem sum_snd_insertAdd (d : List (String × ℚ)) (k : String) (v : ℚ) :
    ((insertAdd d k v).map Prod.snd).sum = (d.map Prod.snd).sum + v := by
  induction d with
  | nil => simp [insertAdd]
  | cons a rest ih =>
      obtain ⟨a1, a2⟩ := a
      by_cases h1 : a1 = k <;> simp [insertAdd, h1, ih] <;> ring

/-- Over a duplicate-free dictionary, looking up every key and summing
recovers the sum of all stored values. -/
theorem sum_dictGet_keys (d : List (String × ℚ)) (hd : (d.map Prod.fst).Nodup) :
    ((d.map Prod.fst).map (dictGet d)).sum = (d.map Prod.snd).sum := by
  induction d with
  | nil => simp
  | cons a rest ih =>
      obtain ⟨a1, a2⟩ := a
      simp only [List.map_cons, List.nodup_cons, List.mem_map] at hd ⊢
      obtain ⟨ha, hrest⟩ := hd
      have hhead : dictGet ((a1, a2) :: rest) a1 = a2 := by simp [dictGet]
      have htail : ((rest.map Prod.fst).map (dictGet ((a1, a2) :: rest))).sum =
          ((rest.map Prod.fst).map (dictGet rest)).sum := by
        apply congrArg
        apply List.map_congr_left
        intro k hk
        have hne : ¬ a1 = k := by
          rintro rfl
          exact ha (by simpa using hk)
        simp [dictGet, hne]
      simp only [List.sum_cons, hhead, htail, ih hrest]

/-! ### Aggregation-loop lemmas -/

theorem buildAux_error_iff (ts : List PyTrade) (d : List (String × ℚ)) :
    buildAux ts d = Except.error () ↔ ∃ t ∈ ts, stepT t = Except.error () := by
  induction ts generalizing d with
  | nil => simp [buildAux]
  | cons t ts ih =>
      cases hst : stepT t with
      | error e =>
          cases e
          simp only [buildAux, hst]
          exact ⟨fun _ => ⟨t, by simp, hst⟩, fun _ => trivial⟩
      | ok o =>
          cases o with
          | none => simp [buildAux, hst, ih]
          | some kv =>
              obtain ⟨k, v⟩ := kv
              simp [buildAux, hst, ih]

theorem buildAux_ok_dictGet {ts : List PyTrade} {d D : List (String × ℚ)}
    (h : buildAux ts d = Except.ok D) (k : String) :
    dictGet D k = dictGet d k + (ts.map (contribToPy k)).sum := by
  induction ts generalizing d with
  | nil =>
      simp only [buildAux, Except.ok.injEq] at h
      simp [h]
  | cons t ts ih =>
      cases hst : stepT t with
      | error e => simp [buildAux, hst] at h
      | ok o =>
          cases o with
          | none =>
              simp only [buildAux, hst] at h
              simp [ih h, contribToPy, hst]
          | some kv =>
              obtain ⟨k', v⟩ := kv
              simp only [buildAux, hst] at h
              have := ih h
              rw [dictGet_insertAdd] at this
              simp only [List.map_cons, List.sum_cons, this, contribToPy, hst]
              ring

theorem buildAux_ok_mem_keys {ts : List PyTrade} {d D : List (String × ℚ)}
    (h : buildAux ts d = Except.ok D) (k : String) :
    k ∈ D.map Prod.fst ↔
      k ∈ d.map Prod.fst ∨ ∃ t ∈ ts, ∃ v, stepT t = Except.ok (some (k, v)) := by
  induction ts generalizing d with
  | nil =>
      simp only [buildAux, Except.ok.injEq] at h
      simp [h]
  | cons t ts ih =>
      cases hst : stepT t with
      | error e => simp [buildAux, hst] at h
      | ok o =>
          cases o with
          | none =>
              simp only [buildAux, hst] at h
              rw [ih h]
              simp [hst]
          | some kv =>
              obtain ⟨k', v⟩ := kv
              simp only [buildAux, hst] at h
              rw [ih h, mem_map_fst_insertAdd]
              constructor
              · rintro ((hm | rfl) | ⟨t', ht', v', hstep⟩)
                · exact Or.inl hm
                · exact Or.inr ⟨t, by simp, v, hst⟩
                · exact Or.inr ⟨t', by simp [ht'], v', hstep⟩
              · rintro (hm | ⟨t', ht', v', hstep⟩)
                · exact Or.inl (Or.inl hm)
                · rcases List.mem_cons.mp ht' with rfl | ht''
                  · rw [hst] at hstep
                    simp only [Except.ok.injEq, Option.some.injEq, Prod.mk.injEq] at hstep
                    exact Or.inl (Or.inr hstep.1.symm)
                  · exact Or.inr ⟨t', ht'', v', hstep⟩

theorem buildAux_ok_nodup {ts : List PyTrade} {d D : List (String × ℚ)}
    (h : buildAux ts d = Except.ok D) (hd : (d.map Prod.fst).Nodup) :
    (D.map Prod.fst).Nodup := by
  induction ts generalizing d with
  | nil =>
      simp only [buildAux, Except.ok.injEq] at h
      exact h ▸ hd
  | cons t ts ih =>
      cases hst : stepT t with
      | error e => simp [buildAux, hst] at h
      | ok o =>
          cases o with
          | none =>
              simp only [buildAux, hst] at h
              exact ih h hd
          | some kv =>
              obtain ⟨k', v⟩ := kv
              simp only [buildAux, hst] at h
              exact ih h (nodup_map_fst_insertAdd d k' v hd)

theorem buildAux_ok_sum {ts : List PyTrade} {d D : List (String × ℚ)}
    (h : buildAux ts d = Except.ok D) :
    (D.map Prod.snd).sum = (d.map Prod.snd).sum + (ts.map contribValPy).sum := by
  induction ts generalizing d with
  | nil =>
      simp only [buildAux, Except.ok.injEq] at h
      simp [h]
  | cons t ts ih =>
      cases hst : stepT t with
      | error e => simp [buildAux, hst] at h
      | ok o =>
          cases o with
          | none =>
              simp only [buildAux, hst] at h
              simp [ih h, contribValPy, hst]
          | some kv =>
              obtain ⟨k', v⟩ := kv
              simp only [buildAux, hst] at h
              rw [ih h, sum_snd_insertAdd]
              simp only [List.map_cons, List.sum_cons, contribValPy, hst]
              ring

/-! ### Well-shaped trades never raise -/

theorem pyFloat_pyOrZero_num (q : ℚ) :
    pyFloat (pyOrZero (PyVal.num q)) = Except.ok q := by
  by_cases h : q = 0 <;> simp [pyOrZero, pyFalsy, pyFloat, h]

theorem stepT_toPy (t : Trade) : stepT t.toPy = Except.ok (tradeContrib t) := by
  cases h : pyFromisoDay (replaceZ t.timestamp) with
  | none => simp [stepT, tryParseDay, Trade.toPy, tradeContrib, h]
  | some day =>
      simp [stepT, tryParseDay, Trade.toPy, tradeContrib, h, pyFloat_pyOrZero_num,
        pyStrLower]

theorem buildAux_map_toPy (ts : List Trade) (d : List (String × ℚ)) :
    buildAux (ts.map Trade.toPy) d = Except.ok (buildAuxT ts d) := by
  induction ts generalizing d with
  | nil => simp [buildAux, buildAuxT]
  | cons t ts ih =>
      cases h : tradeContrib t with
      | none => simp [buildAux, buildAuxT, stepT_toPy, h, ih]
      | some kv =>
          obtain ⟨k, v⟩ := kv
          simp [buildAux, buildAuxT, stepT_toPy, h, ih]

theorem computeMetricsPy_map_toPy (ts : List Trade) :
    computeMetricsPy (ts.map Trade.toPy) = Except.ok (computeMetricsT ts) := by
  simp [computeMetricsPy, buildDailyPy, buildAux_map_toPy, computeMetricsT,
    buildDailyT, Except.map]

theorem contribToPy_toPy (k : String) (t : Trade) :
    contribToPy k t.toPy = contribTo k t := by
  simp only [contribToPy, stepT_toPy, contribTo, tradeContrib]
  cases h : pyFromisoDay (replaceZ t.timestamp) <;> simp

theorem contribValPy_toPy (t : Trade) : contribValPy t.toPy = contribVal t := by
  simp only [contribValPy, stepT_toPy, contribVal]
  cases h : tradeContrib t with
  | none => simp
  | some kv => obtain ⟨k, v⟩ := kv; simp

theorem buildAuxT_dictGet (ts : List Trade) (d : List (String × ℚ)) (k : String) :
    dictGet (buildAuxT ts d) k = dictGet d k + (ts.map (contribTo k)).sum := by
  have h := buildAux_ok_dictGet (buildAux_map_toPy ts d) k
  simpa [List.map_map, Function.comp_def, contribToPy_toPy] using h

/-- The daily dictionary built by `compute_metrics` stores, at each date
key, the sum of the signed notionals of the trades on that date. -/
theorem buildDailyT_dictGet (ts : List Trade) (k : String) :
    dictGet (buildDailyT ts) k = (ts.map (contribTo k)).sum := by
  simpa [dictGet] using buildAuxT_dictGet ts [] k

theorem mem_keys_buildDailyT (ts : List Trade) (k : String) :
    k ∈ (buildDailyT ts).map Prod.fst ↔
      ∃ t ∈ ts, ∃ v, tradeContrib t = some (k, v) := by
  have h := buildAux_ok_mem_keys (buildAux_map_toPy ts []) k
  simpa [stepT_toPy] using h

theorem nodup_keys_buildDailyT (ts : List Trade) :
    ((buildDailyT ts).map Prod.fst).Nodup :=
  buildAux_ok_nodup (buildAux_map_toPy ts []) (by simp)

theorem sum_buildDailyT (ts : List Trade) :
    ((buildDailyT ts).map Prod.snd).sum = (ts.map contribVal).sum := by
  have h := buildAux_ok_sum (buildAux_map_toPy ts [])
  simpa [List.map_map, Function.comp_def, contribValPy_toPy] using h

/-! ### The sorted day list and the series -/

theorem daysOf_sorted (d : List (String × ℚ)) : List.Sorted (· ≤ ·) (daysOf d) :=
  List.sorted_insertionSort _ _

theorem daysOf_perm (d : List (String × ℚ)) : List.Perm (daysOf d) (d.map Prod.fst) :=
  List.perm_insertionSort _ _

theorem daysOf_nodup (d : List (String × ℚ)) (hd : (d.map Prod.fst).Nodup) :
    (daysOf d).Nodup :=
  ((daysOf_perm d).nodup_iff).mpr hd

theorem mem_daysOf (d : List (String × ℚ)) (k : String) :
    k ∈ daysOf d ↔ k ∈ d.map Prod.fst :=
  (daysOf_perm d).mem_iff

theorem seriesOf_sum (d : List (String × ℚ)) (hd : (d.map Prod.fst).Nodup) :
    (seriesOf d).sum = (d.map Prod.snd).sum := by
  have hperm : List.Perm ((daysOf d).map (dictGet d)) ((d.map Prod.fst).map (dictGet d)) :=
    (daysOf_perm d).map (dictGet d)
  rw [seriesOf, hperm.sum_eq, sum_dictGet_keys d hd]

/-! ### Drawdown characterisation -/

theorem ite_lt_eq_max (a b : ℚ) : (if a < b then b else a) = max a b := by
  rcases le_or_lt b a with h | h
  · rw [if_neg (not_lt.mpr h), max_eq_left h]
  · rw [if_pos h, max_eq_right h.le]

theorem mddStep_some (c p m v : ℚ) :
    mddStep (c, some p, m) v =
      (c + v, some (max p (c + v)), max m (max p (c + v) - (c + v))) := by
  simp only [mddStep, ite_lt_eq_max]

theorem foldl_mddStep_mdd (vs : List ℚ) (c p m : ℚ) :
    (vs.foldl mddStep (c, some p, m)).2.2 = (ddsFrom c p vs).foldl max m := by
  induction vs generalizing c p m with
  | nil => rfl
  | cons v vs ih =>
      rw [List.foldl_cons, mddStep_some, ddsFrom, List.foldl_cons, ih]

theorem ddsFrom_eq_zipWith (vs : List ℚ) (c p : ℚ) :
    ddsFrom c p vs =
      List.zipWith (fun a b => a - b) (pmAux p (cumsFrom c vs)) (cumsFrom c vs) := by
  induction vs generalizing c p with
  | nil => rfl
  | cons v vs ih => rw [ddsFrom, cumsFrom, pmAux, List.zipWith_cons_cons, ih]

/-- The drawdown loop computes the maximum, over the series positions, of
the running peak minus the current cumulative value. -/
theorem maxDrawdownOf_eq (l : List ℚ) :
    maxDrawdownOf l =
      (List.zipWith (fun a b => a - b) (prefixMaxes (cums l)) (cums l)).foldl max 0 := by
  cases l with
  | nil => rfl
  | cons v vs =>
      have h1 : mddStep (0, Option.none, 0) v = (0 + v, some (0 + v), 0) := by
        simp [mddStep, sub_self]
      rw [maxDrawdownOf, List.foldl_cons, h1, foldl_mddStep_mdd, ddsFrom_eq_zipWith]
      simp [cums, cumsFrom, prefixMaxes]

theorem le_foldl_max (l : List ℚ) (b : ℚ) : b ≤ l.foldl max b := by
  induction l generalizing b with
  | nil => exact le_refl b
  | cons x xs ih => exact le_trans (le_max_left b x) (ih (max b x))

theorem maxDrawdownOf_nonneg (l : List ℚ) : 0 ≤ maxDrawdownOf l := by
  rw [maxDrawdownOf_eq]
  exact le_foldl_max _ 0

theorem pmAux_of_chain {cs : List ℚ} {c : ℚ} (h : List.Chain' (· ≤ ·) (c :: cs)) :
    pmAux c cs = cs := by
  induction cs generalizing c with
  | nil => rfl
  | cons x xs ih =>
      have hcx : c ≤ x := (List.chain'_cons.mp h).1
      have htail : List.Chain' (· ≤ ·) (x :: xs) := (List.chain'_cons.mp h).2
      rw [pmAux, max_eq_right hcx, ih htail]

theorem zipWith_sub_self (cs : List ℚ) :
    List.zipWith (fun a b => a - b) cs cs = cs.map (fun _ => (0 : ℚ)) := by
  induction cs with
  | nil => rfl
  | cons x xs ih => simp [ih]

theorem foldl_max_zeros (cs : List ℚ) : (cs.map (fun _ => (0 : ℚ))).foldl max 0 = 0 := by
  induction cs with
  | nil => rfl
  | cons x xs ih => simpa using ih

/-- When the cumulative series is non-decreasing throughout, the maximum
drawdown is zero. -/
theorem maxDrawdownOf_of_chain (l : List ℚ)
    (h : List.Chain' (· ≤ ·) (cums l)) : maxDrawdownOf l = 0 := by
  rw [maxDrawdownOf_eq]
  cases hc : cums l with
  | nil => rfl
  | cons c cs =>
      rw [hc] at h
      rw [prefixMaxes, pmAux_of_chain h, ← hc, zipWith_sub_self, foldl_max_zeros]

/-! ### Statistics lemmas -/

theorem varianceOf_nonneg (l : List ℚ) : 0 ≤ varianceOf l := by
  unfold varianceOf
  split
  · apply div_nonneg
    · apply List.sum_nonneg
      intro x hx
      obtain ⟨v, hv, rfl⟩ := List.mem_map.mp hx
      exact sq_nonneg _
    · exact Nat.cast_nonneg _
  · exact le_refl 0

theorem stdOf_nonneg (l : List ℚ) : 0 ≤ stdOf l :=
  Real.sqrt_nonneg _

theorem stdOf_sq (l : List ℚ) : stdOf l ^ 2 = ((varianceOf l : ℚ) : ℝ) :=
  Real.sq_sqrt (by exact_mod_cast varianceOf_nonneg l)

theorem stdOf_of_short (l : List ℚ) (h : l.length ≤ 1) : stdOf l = 0 := by
  unfold stdOf varianceOf
  rw [if_neg (by omega)]
  simp

theorem winRate_nonneg (l : List ℚ) : 0 ≤ winRate l := by
  unfold winRate
  split
  · exact le_refl 0
  · exact mul_nonneg (div_nonneg (Nat.cast_nonneg _) (Nat.cast_nonneg _)) (by norm_num)

theorem winRate_le_100 (l : List ℚ) : winRate l ≤ 100 := by
  unfold winRate
  split
  · norm_num
  · have hne : l ≠ [] := by assumption
    have hlen : 0 < l.length := List.length_pos.mpr hne
    have hcast : (0 : ℚ) < (l.length : ℚ) := by exact_mod_cast hlen
    have hdiv : (winsOf l : ℚ) / (l.length : ℚ) ≤ 1 := by
      rw [div_le_one hcast]
      exact_mod_cast List.countP_le_length _
    calc (winsOf l : ℚ) / (l.length : ℚ) * 100 ≤ 1 * 100 := by
          exact mul_le_mul_of_nonneg_right hdiv (by norm_num)
      _ = 100 := by norm_num

theorem winRate_eq_zero_iff (l : List ℚ) :
    winRate l = 0 ↔ ∀ v ∈ l, v ≤ 0 := by
  unfold winRate
  split
  · have hnil : l = [] := by assumption
    subst hnil
    simp
  · have hne : l ≠ [] := by assumption
    have hlen : 0 < l.length := List.length_pos.mpr hne
    have hcast : ((l.length : ℚ)) ≠ 0 := by
      exact_mod_cast Nat.pos_iff_ne_zero.mp hlen
    constructor
    · intro h v hv
      rcases mul_eq_zero.mp h with h0 | h0
      · rcases div_eq_zero_iff.mp h0 with h1 | h1
        · have hw : winsOf l = 0 := by exact_mod_cast h1
          have := List.countP_eq_zero.mp hw v hv
          simpa using this
        · exact absurd h1 hcast
      · norm_num at h0
    · intro h
      have hw : winsOf l = 0 := by
        apply List.countP_eq_zero.mpr
        intro v hv
        simpa using h v hv
      rw [hw]
      norm_num

theorem sharpeOf_of_gt (l : List ℚ) (h : epsSharpe < stdOf l) :
    sharpeOf l = ((meanOf l : ℚ) : ℝ) / stdOf l := by
  unfold sharpeOf
  rw [if_pos h]

theorem sharpeOf_of_le (l : List ℚ) (h : stdOf l ≤ epsSharpe) :
    sharpeOf l = 0 := by
  unfold sharpeOf
  rw [if_neg (not_lt.mpr h)]

/-! ### Lexicographic order of canonical date strings -/

theorem digitChar_isDigit {k : ℕ} (h : k < 10) : (digitChar k).isDigit = true := by
  interval_cases k <;> decide

theorem digitChar_toNat {k : ℕ} (h : k < 10) : (digitChar k).toNat = 48 + k := by
  interval_cases k <;> decide

theorem digitChar_lt {a b : ℕ} (ha : a < 10) (hb : b < 10) (h : a < b) :
    digitChar a < digitChar b := by
  interval_cases a <;> interval_cases b <;> revert h <;> decide

theorem digitChar_inj {a b : ℕ} (ha : a < 10) (hb : b < 10)
    (h : digitChar a = digitChar b) : a = b := by
  interval_cases a <;> interval_cases b <;> revert h <;> decide

theorem lex_append_left (xs : List Char) {r1 r2 : List Char}
    (h : List.Lex (· < ·) r1 r2) : List.Lex (· < ·) (xs ++ r1) (xs ++ r2) := by
  induction xs with
  | nil => exact h
  | cons x xs ih => exact List.Lex.cons ih

theorem pad4_lex {y1 y2 : ℕ} (h2 : y2 ≤ 9999) (hlt : y1 < y2) (r1 r2 : List Char) :
    List.Lex (· < ·) (pad4 y1 ++ r1) (pad4 y2 ++ r2) := by
  have hb : ∀ n : ℕ, n % 10 < 10 := fun n => Nat.mod_lt _ (by norm_num)
  show List.Lex (· < ·)
      (digitChar (y1 / 1000 % 10) :: digitChar (y1 / 100 % 10) ::
        digitChar (y1 / 10 % 10) :: digitChar (y1 % 10) :: r1)
      (digitChar (y2 / 1000 % 10) :: digitChar (y2 / 100 % 10) ::
        digitChar (y2 / 10 % 10) :: digitChar (y2 % 10) :: r2)
  rcases lt_trichotomy (y1 / 1000 % 10) (y2 / 1000 % 10) with h | h | h
  · exact List.Lex.rel (digitChar_lt (hb _) (hb _) h)
  · rw [h]
    rcases lt_trichotomy (y1 / 100 % 10) (y2 / 100 % 10) with h' | h' | h'
    · exact List.Lex.cons (List.Lex.rel (digitChar_lt (hb _) (hb _) h'))
    · rw [h']
      rcases lt_trichotomy (y1 / 10 % 10) (y2 / 10 % 10) with h'' | h'' | h''
      · exact List.Lex.cons (List.Lex.cons (List.Lex.rel (digitChar_lt (hb _) (hb _) h'')))
      · rw [h'']
        have h3 : y1 % 10 < y2 % 10 := by omega
        exact List.Lex.cons (List.Lex.cons (List.Lex.cons
          (List.Lex.rel (digitChar_lt (hb _) (hb _) h3))))
      · exfalso
        omega
    · exfalso
      omega
  · exfalso
    omega

theorem pad2_lex {a b : ℕ} (h2 : b ≤ 99) (hlt : a < b) (r1 r2 : List Char) :
    List.Lex (· < ·) (pad2 a ++ r1) (pad2 b ++ r2) := by
  have hb : ∀ n : ℕ, n % 10 < 10 := fun n => Nat.mod_lt _ (by norm_num)
  show List.Lex (· < ·)
      (digitChar (a / 10 % 10) :: digitChar (a % 10) :: r1)
      (digitChar (b / 10 % 10) :: digitChar (b % 10) :: r2)
  rcases lt_trichotomy (a / 10 % 10) (b / 10 % 10) with h | h | h
  · exact List.Lex.rel (digitChar_lt (hb _) (hb _) h)
  · rw [h]
    have h3 : a % 10 < b % 10 := by omega
    exact List.Lex.cons (List.Lex.rel (digitChar_lt (hb _) (hb _) h3))
  · exfalso
    omega

theorem validDate_bounds {t : Date} (h : validDate t = true) :
    t.1 ≤ 9999 ∧ t.2.1 ≤ 99 ∧ t.2.2 ≤ 99 := by
  obtain ⟨y, m, d⟩ := t
  show y ≤ 9999 ∧ m ≤ 99 ∧ d ≤ 99
  simp only [validDate, daysInMonth, Bool.and_eq_true, decide_eq_true_eq] at h
  refine ⟨by omega, by omega, ?_⟩
  have hd := h.2.2.2.2.2
  dsimp only at hd
  split at hd
  · omega
  · split at hd
    · omega
    · split at hd <;> omega

/-- Ascending chronological order of valid dates coincides with ascending
lexicographic order of their canonical ISO renderings. -/
theorem dateToIso_lt_of_dateLt {t1 t2 : Date} (hv1 : validDate t1 = true)
    (hv2 : validDate t2 = true) (h : dateLt t1 t2) :
    dateToIso t1 < dateToIso t2 := by
  obtain ⟨y1, m1, d1⟩ := t1
  obtain ⟨y2, m2, d2⟩ := t2
  have hb1 := validDate_bounds hv1
  have hb2 := validDate_bounds hv2
  rw [String.lt_iff_toList_lt]
  have hl1 : (dateToIso (y1, m1, d1)).toList =
      pad4 y1 ++ '-' :: (pad2 m1 ++ '-' :: pad2 d1) := rfl
  have hl2 : (dateToIso (y2, m2, d2)).toList =
      pad4 y2 ++ '-' :: (pad2 m2 ++ '-' :: pad2 d2) := rfl
  rw [hl1, hl2]
  show List.Lex (· < ·) _ _
  rcases h with hy | ⟨hy, hm | ⟨hm, hd⟩⟩
  · exact pad4_lex hb2.1 hy _ _
  · dsimp only at hy
    subst hy
    apply lex_append_left (pad4 y1)
    exact List.Lex.cons (pad2_lex hb2.2.1 hm _ _)
  · dsimp only at hy hm
    subst hy
    subst hm
    apply lex_append_left (pad4 y1)
    apply List.Lex.cons
    apply lex_append_left (pad2 m1)
    exact List.Lex.cons (pad2_lex hb2.2.2 hd _ _)

theorem dateToIso_lt_iff {t1 t2 : Date} (hv1 : validDate t1 = true)
    (hv2 : validDate t2 = true) :
    dateToIso t1 < dateToIso t2 ↔ dateLt t1 t2 := by
  constructor
  · intro h
    by_contra hno
    obtain ⟨y1, m1, d1⟩ := t1
    obtain ⟨y2, m2, d2⟩ := t2
    rcases eq_or_ne (y1, m1, d1) (y2, m2, d2) with heq | hne
    · rw [heq] at h
      exact lt_irrefl _ h
    · have hne' : ¬(y1 = y2 ∧ m1 = m2 ∧ d1 = d2) := by
        intro hc
        exact hne (by rw [hc.1, hc.2.1, hc.2.2])
      have hlt : dateLt (y2, m2, d2) (y1, m1, d1) := by
        unfold dateLt at hno ⊢
        dsimp only at hno ⊢
        omega
      exact lt_asymm h (dateToIso_lt_of_dateLt hv2 hv1 hlt)
  · exact dateToIso_lt_of_dateLt hv1 hv2

/-! ### Round trip between rendering and parsing of date strings -/

theorem digitsToNat_four {y : ℕ} (h : y ≤ 9999) :
    digitsToNat [digitChar (y / 1000 % 10), digitChar (y / 100 % 10),
      digitChar (y / 10 % 10), digitChar (y % 10)] = y := by
  have hb : ∀ n : ℕ, n % 10 < 10 := fun n => Nat.mod_lt _ (by norm_num)
  simp only [digitsToNat, List.foldl_cons, List.foldl_nil, digitChar_toNat (hb _)]
  omega

theorem digitsToNat_two {m : ℕ} (h : m ≤ 99) :
    digitsToNat [digitChar (m / 10 % 10), digitChar (m % 10)] = m := by
  have hb : ∀ n : ℕ, n % 10 < 10 := fun n => Nat.mod_lt _ (by norm_num)
  simp only [digitsToNat, List.foldl_cons, List.foldl_nil, digitChar_toNat (hb _)]
  omega

theorem parseIso_dateToIso {t : Date} (hv : validDate t = true) :
    parseIsoDateChars (dateToIso t).data = some t := by
  obtain ⟨y, m, d⟩ := t
  have hb := validDate_bounds hv
  have hdig : ∀ n : ℕ, (digitChar (n % 10)).isDigit = true :=
    fun n => digitChar_isDigit (Nat.mod_lt _ (by norm_num))
  show parseIsoDateChars
      [digitChar (y / 1000 % 10), digitChar (y / 100 % 10), digitChar (y / 10 % 10),
        digitChar (y % 10), '-', digitChar (m / 10 % 10), digitChar (m % 10), '-',
        digitChar (d / 10 % 10), digitChar (d % 10)] = some (y, m, d)
  rw [parseIsoDateChars]
  rw [if_pos]
  · rw [digitsToNat_four hb.1, digitsToNat_two hb.2.1, digitsToNat_two hb.2.2, if_pos hv]
  · refine ⟨rfl, rfl, ?_⟩
    simp only [List.all_cons, List.all_nil, hdig, Bool.and_self, Bool.and_true]

theorem parseIsoDateChars_valid {cs : List Char} {t : Date}
    (h : parseIsoDateChars cs = some t) : validDate t = true := by
  rw [parseIsoDateChars.eq_def] at h
  split at h
  · split at h
    · split at h
      · cases h
        assumption
      · exact absurd h (by simp)
    · exact absurd h (by simp)
  · exact absurd h (by simp)

theorem pyFromisoDay_shape {s day : String} (h : pyFromisoDay s = some day) :
    ∃ t : Date, validDate t = true ∧ day = dateToIso t := by
  rw [pyFromisoDay] at h
  cases hp : parseIsoDateChars (s.data.take 10) with
  | none => rw [hp] at h; exact absurd h (by simp)
  | some t =>
      rw [hp] at h
      dsimp only at h
      by_cases hv : validTimeRest (s.data.drop 10) = true
      · rw [if_pos hv] at h
        cases h
        exact ⟨t, parseIsoDateChars_valid hp, rfl⟩
      · rw [if_neg hv] at h
        exact absurd h (by simp)

/-- Every key of the daily dictionary is the canonical rendering of a
valid calendar date. -/
theorem keys_are_dates (ts : List Trade) :
    ∀ k ∈ (buildDailyT ts).map Prod.fst,
      ∃ t : Date, validDate t = true ∧ k = dateToIso t := by
  intro k hk
  rw [mem_keys_buildDailyT] at hk
  obtain ⟨tr, _, v, hc⟩ := hk
  rw [tradeContrib.eq_def] at hc
  cases hp : pyFromisoDay (replaceZ tr.timestamp) with
  | none => rw [hp] at hc; exact absurd hc (by simp)
  | some day =>
      rw [hp] at hc
      simp only [Option.some.injEq, Prod.mk.injEq] at hc
      obtain ⟨rfl, -⟩ := hc
      exact pyFromisoDay_shape hp

/-! ### Order invariance -/

theorem dailyPy_perm_eq {ts1 ts2 : List PyTrade} (hp : List.Perm ts1 ts2)
    {D1 D2 : List (String × ℚ)} (h1 : buildDailyPy ts1 = Except.ok D1)
    (h2 : buildDailyPy ts2 = Except.ok D2) :
    daysOf D1 = daysOf D2 ∧ ∀ k, dictGet D1 k = dictGet D2 k := by
  have hnd1 : (D1.map Prod.fst).Nodup := buildAux_ok_nodup h1 (by simp)
  have hnd2 : (D2.map Prod.fst).Nodup := buildAux_ok_nodup h2 (by simp)
  have hget : ∀ k, dictGet D1 k = dictGet D2 k := by
    intro k
    rw [buildAux_ok_dictGet h1 k, buildAux_ok_dictGet h2 k,
      (hp.map (contribToPy k)).sum_eq]
  refine ⟨?_, hget⟩
  have hmem : ∀ k, k ∈ D1.map Prod.fst ↔ k ∈ D2.map Prod.fst := by
    intro k
    rw [buildAux_ok_mem_keys h1 k, buildAux_ok_mem_keys h2 k]
    simp only [List.map_nil, List.not_mem_nil, false_or]
    constructor
    · rintro ⟨t, ht, v, hs⟩
      exact ⟨t, hp.subset ht, v, hs⟩
    · rintro ⟨t, ht, v, hs⟩
      exact ⟨t, hp.symm.subset ht, v, hs⟩
  have hkp : List.Perm (D1.map Prod.fst) (D2.map Prod.fst) :=
    (List.perm_ext_iff_of_nodup hnd1 hnd2).mpr hmem
  exact List.eq_of_perm_of_sorted
    ((daysOf_perm D1).trans (hkp.trans (daysOf_perm D2).symm))
    (daysOf_sorted D1) (daysOf_sorted D2)

theorem computeMetricsPy_perm {ts1 ts2 : List PyTrade} (hp : List.Perm ts1 ts2) :
    computeMetricsPy ts1 = computeMetricsPy ts2 := by
  cases h1 : buildDailyPy ts1 with
  | error e =>
      cases e
      have h2 : buildDailyPy ts2 = Except.error () := by
        unfold buildDailyPy at h1 ⊢
        rw [buildAux_error_iff] at h1 ⊢
        obtain ⟨t, ht, hs⟩ := h1
        exact ⟨t, hp.subset ht, hs⟩
      rw [computeMetricsPy, computeMetricsPy, h1, h2]
  | ok D1 =>
      cases h2 : buildDailyPy ts2 with
      | error e =>
          cases e
          have h1' : buildDailyPy ts1 = Except.error () := by
            unfold buildDailyPy at h2 ⊢
            rw [buildAux_error_iff] at h2 ⊢
            obtain ⟨t, ht, hs⟩ := h2
            exact ⟨t, hp.symm.subset ht, hs⟩
          rw [h1'] at h1
          cases h1
      | ok D2 =>
          obtain ⟨hdays, hget⟩ := dailyPy_perm_eq hp h1 h2
          have hser : seriesOf D1 = seriesOf D2 := by
            rw [seriesOf, seriesOf, hdays]
            exact List.map_congr_left (fun k _ => hget k)
          have hdl : dailyListOf D1 = dailyListOf D2 := by
            rw [dailyListOf, dailyListOf, hdays]
            exact List.map_congr_left (fun k _ => by rw [hget k])
          rw [computeMetricsPy, computeMetricsPy, h1, h2]
          simp only [Except.map]
          rw [metricsOfDict, metricsOfDict, hser, hdl]

/-! ### Records on which the aggregation loop cannot raise -/

theorem pyFloat_benign {ov : Option PyVal} (h : BenignVal ov = true) :
    ∃ q, pyFloat (pyOrZero (ov.getD (PyVal.num 0))) = Except.ok q := by
  cases ov with
  | none => exact ⟨0, by simp [pyOrZero, pyFalsy, pyFloat]⟩
  | some v =>
      cases v with
      | none => exact ⟨0, by simp [pyOrZero, pyFalsy, pyFloat]⟩
      | num q => exact ⟨q, pyFloat_pyOrZero_num q⟩
      | str s =>
          simp only [BenignVal, Bool.or_eq_true, decide_eq_true_eq,
            Option.isSome_iff_exists] at h
          rcases h with rfl | ⟨q, hq⟩
          · exact ⟨0, by simp [pyOrZero, pyFalsy, pyFloat]⟩
          · by_cases hs : s = ""
            · exact ⟨0, by simp [pyOrZero, pyFalsy, pyFloat, hs]⟩
            · exact ⟨q, by simp [pyOrZero, pyFalsy, pyFloat, hs, hq]⟩

theorem pyStrLower_benign {ov : Option PyVal} (h : BenignSide ov = true) :
    ∃ s, pyStrLower (ov.getD (PyVal.str "buy")) = Except.ok s := by
  cases ov with
  | none => exact ⟨pyLower "buy", rfl⟩
  | some v =>
      cases v with
      | none => simp [BenignSide] at h
      | num q => simp [BenignSide] at h
      | str s => exact ⟨pyLower s, rfl⟩

theorem stepT_benign {t : PyTrade} (h : Benign t = true) :
    ∃ r, stepT t = Except.ok r := by
  simp only [Benign, Bool.and_eq_true] at h
  obtain ⟨⟨hq, hp⟩, hs⟩ := h
  rw [stepT.eq_def]
  cases hd : tryParseDay t.timestamp with
  | none => exact ⟨Option.none, rfl⟩
  | some day =>
      obtain ⟨q, hq'⟩ := pyFloat_benign hq
      obtain ⟨p, hp'⟩ := pyFloat_benign hp
      obtain ⟨s, hs'⟩ := pyStrLower_benign hs
      rw [hq', hp', hs']
      exact ⟨some (day, p * q * (if s = "buy" then 1 else -1)), rfl⟩

theorem buildAux_benign {ts : List PyTrade} (h : ∀ t ∈ ts, Benign t = true)
    (d : List (String × ℚ)) : ∃ D, buildAux ts d = Except.ok D := by
  cases hb : buildAux ts d with
  | error e =>
      cases e
      rw [buildAux_error_iff] at hb
      obtain ⟨t, ht, hstep⟩ := hb
      obtain ⟨r, hr⟩ := stepT_benign (h t ht)
      rw [hr] at hstep
      cases hstep
  | ok D => exact ⟨D, rfl⟩

theorem contribValPy_benign {t : PyTrade} (h : Benign t = true) :
    contribValPy t = pyContribSpec t := by
  simp only [Benign, Bool.and_eq_true] at h
  obtain ⟨⟨hq, hp⟩, hs⟩ := h
  rw [contribValPy, pyContribSpec, stepT.eq_def]
  cases hd : tryParseDay t.timestamp with
  | none => rfl
  | some day =>
      obtain ⟨q, hq'⟩ := pyFloat_benign hq
      obtain ⟨p, hp'⟩ := pyFloat_benign hp
      obtain ⟨s, hs'⟩ := pyStrLower_benign hs
      rw [hq', hp', hs']
      simp [pyNum, pySide, hq', hp', hs']

/-! ### Projections of the daily list -/

theorem dailyListOf_map_fst (d : List (String × ℚ)) :
    (dailyListOf d).map Prod.fst = daysOf d := by
  simp [dailyListOf, List.map_map, Function.comp_def]

theorem dailyListOf_map_snd (d : List (String × ℚ)) :
    (dailyListOf d).map Prod.snd = seriesOf d := by
  simp [dailyListOf, seriesOf, List.map_map, Function.comp_def]

theorem dailyListOf_length (d : List (String × ℚ)) :
    (dailyListOf d).length = (seriesOf d).length := by
  simp [dailyListOf, seriesOf]

theorem lastSlice3_length (daily : List (String × ℚ)) :
    (lastSlice3 daily).length = min 3 daily.length := by
  simp only [lastSlice3, List.length_map, List.length_drop]
  omega

theorem lastSlice3_ne_nil {daily : List (String × ℚ)} (h : daily ≠ []) :
    lastSlice3 daily ≠ [] := by
  intro hc
  have := lastSlice3_length daily
  rw [hc] at this
  simp only [List.length_nil] at this
  have : daily.length = 0 := by omega
  exact h (List.length_eq_zero.mp this)

/-! ### Evaluation of the scenarios -/

theorem buildDailyT_scenarioA : buildDailyT scenarioA = [("2024-01-01", -100)] := by
  have hp : pyFromisoDay (replaceZ "2024-01-01") = some "2024-01-01" := by decide
  have hb : pyLower "buy" = "buy" := by decide
  have hs : pyLower "sell" = "sell" := by decide
  simp [scenarioA, buildDailyT, buildAuxT, tradeContrib, hp, hb, hs, insertAdd]
  norm_num

theorem seriesOf_scenarioA : seriesOf (buildDailyT scenarioA) = [-100] := by
  rw [buildDailyT_scenarioA]
  simp [seriesOf, daysOf, List.insertionSort, dictGet]

theorem buildDailyT_scenarioB :
    buildDailyT scenarioB = [("2024-01-01", 100), ("2024-01-02", 105), ("2024-01-03", 98)] := by
  have hp1 : pyFromisoDay (replaceZ "2024-01-01") = some "2024-01-01" := by decide
  have hp2 : pyFromisoDay (replaceZ "2024-01-02") = some "2024-01-02" := by decide
  have hp3 : pyFromisoDay (replaceZ "2024-01-03") = some "2024-01-03" := by decide
  have hb : pyLower "buy" = "buy" := by decide
  simp +decide [scenarioB, buildDailyT, buildAuxT, tradeContrib, hp1, hp2, hp3, hb,
    insertAdd]

theorem seriesOf_scenarioB :
    seriesOf (buildDailyT scenarioB) = [100, 105, 98] := by
  rw [buildDailyT_scenarioB]
  simp +decide [seriesOf, daysOf, List.insertionSort, List.orderedInsert, dictGet]

theorem buildDailyT_boundary :
    buildDailyT boundaryTrades =
      [("2024-01-01", 0), ("2024-01-02", 1 / 10 ^ 9), ("2024-01-03", 2 / 10 ^ 9)] := by
  have hp1 : pyFromisoDay (replaceZ "2024-01-01") = some "2024-01-01" := by decide
  have hp2 : pyFromisoDay (replaceZ "2024-01-02") = some "2024-01-02" := by decide
  have hp3 : pyFromisoDay (replaceZ "2024-01-03") = some "2024-01-03" := by decide
  have hb : pyLower "buy" = "buy" := by decide
  simp +decide [boundaryTrades, buildDailyT, buildAuxT, tradeContrib, hp1, hp2, hp3, hb,
    insertAdd]

theorem seriesOf_boundary :
    seriesOf (buildDailyT boundaryTrades) = [0, 1 / 10 ^ 9, 2 / 10 ^ 9] := by
  rw [buildDailyT_boundary]
  simp +decide [seriesOf, daysOf, List.insertionSort, List.orderedInsert, dictGet]

theorem varianceOf_boundary :
    varianceOf (seriesOf (buildDailyT boundaryTrades)) = 1 / 10 ^ 18 := by
  rw [seriesOf_boundary]
  simp [varianceOf, meanOf, totalReturn]
  norm_num

theorem stdOf_boundary : stdOf (seriesOf (buildDailyT boundaryTrades)) = epsSharpe := by
  rw [stdOf, varianceOf_boundary, epsSharpe]
  have hc : (((1 / 10 ^ 18 : ℚ) : ℝ)) = ((1 / 10 ^ 9 : ℝ)) ^ 2 := by
    norm_num
  rw [hc, Real.sqrt_sq (by norm_num)]

theorem buildDailyT_sharpePos :
    buildDailyT sharpePosTrades =
      [("2024-01-01", 0), ("2024-01-02", 2), ("2024-01-03", 4)] := by
  have hp1 : pyFromisoDay (replaceZ "2024-01-01") = some "2024-01-01" := by decide
  have hp2 : pyFromisoDay (replaceZ "2024-01-02") = some "2024-01-02" := by decide
  have hp3 : pyFromisoDay (replaceZ "2024-01-03") = some "2024-01-03" := by decide
  have hb : pyLower "buy" = "buy" := by decide
  simp +decide [sharpePosTrades, buildDailyT, buildAuxT, tradeContrib, hp1, hp2, hp3,
    hb, insertAdd]

theorem seriesOf_sharpePos :
    seriesOf (buildDailyT sharpePosTrades) = [0, 2, 4] := by
  rw [buildDailyT_sharpePos]
  simp +decide [seriesOf, daysOf, List.insertionSort, List.orderedInsert, dictGet]

theorem stdOf_sharpePos : stdOf (seriesOf (buildDailyT sharpePosTrades)) = 2 := by
  rw [stdOf]
  have hv : varianceOf (seriesOf (buildDailyT sharpePosTrades)) = 4 := by
    rw [seriesOf_sharpePos]
    simp [varianceOf, meanOf, totalReturn]
    norm_num
  rw [hv]
  have hc : ((4 : ℚ) : ℝ) = (2 : ℝ) ^ 2 := by norm_num
  rw [hc, Real.sqrt_sq (by norm_num)]

theorem buildDailyT_constant :
    buildDailyT constantTrades = [("2024-01-01", 100), ("2024-01-02", 100)] := by
  have hp1 : pyFromisoDay (replaceZ "2024-01-01") = some "2024-01-01" := by decide
  have hp2 : pyFromisoDay (replaceZ "2024-01-02") = some "2024-01-02" := by decide
  have hb : pyLower "buy" = "buy" := by decide
  simp +decide [constantTrades, buildDailyT, buildAuxT, tradeContrib, hp1, hp2, hb,
    insertAdd]

theorem seriesOf_constant :
    seriesOf (buildDailyT constantTrades) = [100, 100] := by
  rw [buildDailyT_constant]
  simp +decide [seriesOf, daysOf, List.insertionSort, List.orderedInsert, dictGet]

theorem buildDailyT_sellOnly : buildDailyT sellOnly = [("2024-01-01", -1000)] := by
  have hp : pyFromisoDay (replaceZ "2024-01-01") = some "2024-01-01" := by decide
  have hs : pyLower "sell" = "sell" := by decide
  simp +decide [sellOnly, buildDailyT, buildAuxT, tradeContrib, hp, hs, insertAdd]
  norm_num

theorem seriesOf_sellOnly : seriesOf (buildDailyT sellOnly) = [-1000] := by
  rw [buildDailyT_sellOnly]
  simp [seriesOf, daysOf, List.insertionSort, dictGet]

theorem buildDailyT_nil : buildDailyT ([] : List Trade) = [] := rfl

theorem seriesOf_nil : seriesOf ([] : List (String × ℚ)) = [] := rfl

/-! ### The claims -/

/-- C1: for every trade record with a parseable timestamp, `compute_metrics`
adds to its date bucket a notional `price × quantity × sign`, with sign `+1`
exactly when the lower-cased side equals `"buy"` and `-1` for every other
side value (the bucket value is the sum of `contribTo` over all trades); and
for Scenario A (same-day buy 10 @ 100 and sell 10 @ 110) the single daily
point is `("2024-01-01", -100)`, the total return is `-100` and the win rate
is `0`. -/
theorem claim_C1 :
    (∀ (ts : List Trade) (k : String),
        dictGet (buildDailyT ts) k = (ts.map (contribTo k)).sum) ∧
    (computeMetricsT scenarioA).2 = [("2024-01-01", -100)] ∧
    (computeMetricsT scenarioA).1.total_return = -100 ∧
    (computeMetricsT scenarioA).1.win_rate = 0 := by
  refine ⟨buildDailyT_dictGet, ?_, ?_, ?_⟩
  · show dailyListOf (buildDailyT scenarioA) = [("2024-01-01", -100)]
    rw [buildDailyT_scenarioA]
    simp [dailyListOf, daysOf, List.insertionSort, dictGet]
  · show totalReturn (seriesOf (buildDailyT scenarioA)) = -100
    rw [seriesOf_scenarioA]
    norm_num [totalReturn]
  · show winRate (seriesOf (buildDailyT scenarioA)) = 0
    rw [seriesOf_scenarioA]
    norm_num [winRate, winsOf]

/-- C3: `compute_metrics` returns identical output (same metrics summary and
same daily series) on every permutation of its input collection, including
for loosely-shaped documents and for inputs on which it raises. -/
theorem claim_C3 (ts1 ts2 : List PyTrade) (hp : List.Perm ts1 ts2) :
    computeMetricsPy ts1 = computeMetricsPy ts2 :=
  computeMetricsPy_perm hp

/-- Witness for C3 at a concrete two-element permutation. -/
theorem claim_C3_witness :
    computeMetricsPy
        [⟨some (PyVal.str "2024-01-01"), some (PyVal.num 1), some (PyVal.num 2),
            some (PyVal.str "buy")⟩,
         ⟨some (PyVal.str "2024-01-02"), some (PyVal.num 3), some (PyVal.num 4),
            some (PyVal.str "sell")⟩] =
      computeMetricsPy
        [⟨some (PyVal.str "2024-01-02"), some (PyVal.num 3), some (PyVal.num 4),
            some (PyVal.str "sell")⟩,
         ⟨some (PyVal.str "2024-01-01"), some (PyVal.num 1), some (PyVal.num 2),
            some (PyVal.str "buy")⟩] :=
  claim_C3 _ _ (List.Perm.swap _ _ _)

/-- C10: a record with a parseable timestamp but no side field at all gets
the buy sign: it contributes `+price × quantity` to its date bucket. -/
theorem claim_C10 (tsStr : String) (q p : ℚ) (day : String)
    (h : pyFromisoDay (replaceZ tsStr) = some day) :
    buildDailyPy [⟨some (PyVal.str tsStr), some (PyVal.num q), some (PyVal.num p),
      Option.none⟩] = Except.ok [(day, p * q)] := by
  have hstep : stepT ⟨some (PyVal.str tsStr), some (PyVal.num q), some (PyVal.num p),
      Option.none⟩ = Except.ok (some (day, p * q)) := by
    have hlow : pyLower "buy" = "buy" := by decide
    simp [stepT, tryParseDay, h, pyFloat_pyOrZero_num, pyStrLower, hlow]
  simp [buildDailyPy, buildAux, hstep, insertAdd]

/-- Witness for C10 at a concrete input. -/
theorem claim_C10_witness :
    buildDailyPy [⟨some (PyVal.str "2024-03-05"), some (PyVal.num 3),
      some (PyVal.num 7), Option.none⟩] = Except.ok [("2024-03-05", 7 * 3)] :=
  claim_C10 "2024-03-05" 3 7 "2024-03-05" (by decide)

/-- Counterexample to C2 as stated: on a record whose quantity is the
non-numeric string `"abc"` (and whose timestamp parses), `compute_metrics`
raises (`float("abc")` at main.py line 167 is outside the `try` block), so
it does not return partial results for every badly-shaped record. -/
theorem claim_C2_counterexample :
    computeMetricsPy [⟨some (PyVal.str "2024-01-01"), some (PyVal.str "abc"),
      some (PyVal.num 1), some (PyVal.str "buy")⟩] = Except.error () := rfl

/-- C2 (amended): on records whose quantity/price values are absent, falsy,
numeric, or numeric strings, and whose side value is absent or a string,
`compute_metrics` raises no exception; a record whose timestamp fails to
parse is silently skipped (contributing `0` in `pyContribSpec`), and the
returned total return is exactly the sum of the remaining valid trades'
signed notionals. -/
theorem claim_C2 (ts : List PyTrade) (h : ∀ t ∈ ts, Benign t = true) :
    ∃ m dl, computeMetricsPy ts = Except.ok (m, dl) ∧
      m.total_return = (ts.map pyContribSpec).sum := by
  obtain ⟨D, hD⟩ := buildAux_benign h []
  have hok : buildDailyPy ts = Except.ok D := hD
  refine ⟨metricsOfDict D, dailyListOf D, ?_, ?_⟩
  · rw [computeMetricsPy, hok]
    rfl
  · show totalReturn (seriesOf D) = (ts.map pyContribSpec).sum
    rw [totalReturn, seriesOf_sum D (buildAux_ok_nodup hD (by simp)),
      buildAux_ok_sum hD]
    simp only [List.map_nil, List.sum_nil, zero_add]
    apply congrArg
    exact List.map_congr_left (fun t ht => contribValPy_benign (h t ht))

/-- Witness for C2 (amended) on a concrete benign sample with one valid
trade and two skipped ones. -/
theorem claim_C2_witness :
    ∃ m dl, computeMetricsPy benignSample = Except.ok (m, dl) ∧
      m.total_return = (benignSample.map pyContribSpec).sum :=
  claim_C2 benignSample (by decide)

/-- Counterexample to C4 as stated: at the boundary input `boundaryTrades`
the volatility equals the epsilon `10⁻⁹` exactly — not strictly below it —
yet the sharpe is still forced to `0` while `mean / volatility` is `1`:
the sub-epsilon case is not the only case forced to zero. -/
theorem claim_C4_counterexample :
    (computeMetricsT boundaryTrades).1.volatility = epsSharpe ∧
    (computeMetricsT boundaryTrades).1.sharpe = 0 ∧
    ((meanOf (seriesOf (buildDailyT boundaryTrades)) : ℚ) : ℝ) /
        (computeMetricsT boundaryTrades).1.volatility = 1 := by
  have hv : (computeMetricsT boundaryTrades).1.volatility = epsSharpe := stdOf_boundary
  refine ⟨hv, ?_, ?_⟩
  · show sharpeOf (seriesOf (buildDailyT boundaryTrades)) = 0
    exact sharpeOf_of_le _ (le_of_eq stdOf_boundary)
  · rw [hv]
    have hm : meanOf (seriesOf (buildDailyT boundaryTrades)) = 1 / 10 ^ 9 := by
      rw [seriesOf_boundary]
      simp [meanOf, totalReturn]
      norm_num
    rw [hm, epsSharpe]
    norm_num

/-- C4 (amended): the sharpe returned by `compute_metrics` equals the mean
daily P&L divided by the volatility whenever the volatility is strictly
greater than `10⁻⁹`, and is forced to `0` whenever the volatility is less
than or equal to `10⁻⁹` (the code divides only when `std > 1e-9`). -/
theorem claim_C4 (ts : List Trade) :
    (epsSharpe < (computeMetricsT ts).1.volatility →
        (computeMetricsT ts).1.sharpe =
          ((meanOf (seriesOf (buildDailyT ts)) : ℚ) : ℝ) /
            (computeMetricsT ts).1.volatility) ∧
    ((computeMetricsT ts).1.volatility ≤ epsSharpe →
        (computeMetricsT ts).1.sharpe = 0) :=
  ⟨fun h => sharpeOf_of_gt _ h, fun h => sharpeOf_of_le _ h⟩

/-- Witness for C4 (amended): the dividing branch at a three-day input with
volatility `2`, and the zero branch at the empty input. -/
theorem claim_C4_witness :
    (computeMetricsT sharpePosTrades).1.sharpe =
      ((meanOf (seriesOf (buildDailyT sharpePosTrades)) : ℚ) : ℝ) /
        (computeMetricsT sharpePosTrades).1.volatility ∧
    (computeMetricsT ([] : List Trade)).1.sharpe = 0 := by
  constructor
  · apply (claim_C4 sharpePosTrades).1
    show epsSharpe < stdOf (seriesOf (buildDailyT sharpePosTrades))
    rw [stdOf_sharpePos, epsSharpe]
    norm_num
  · apply (claim_C4 []).2
    show stdOf (seriesOf (buildDailyT [])) ≤ epsSharpe
    rw [stdOf_of_short _ (by rw [buildDailyT_nil, seriesOf_nil]; simp), epsSharpe]
    norm_num

/-- C5: the max drawdown returned by `compute_metrics` is the maximum over
the daily series of (running peak of the cumulative P&L minus current
cumulative P&L), where the first cumulative value becomes the first peak;
it is always non-negative, and it is `0` whenever the cumulative series is
non-decreasing throughout. -/
theorem claim_C5 (ts : List Trade) :
    (computeMetricsT ts).1.max_drawdown =
      (List.zipWith (fun a b => a - b)
        (prefixMaxes (cums (seriesOf (buildDailyT ts))))
        (cums (seriesOf (buildDailyT ts)))).foldl max 0 ∧
    0 ≤ (computeMetricsT ts).1.max_drawdown ∧
    (List.Chain' (· ≤ ·) (cums (seriesOf (buildDailyT ts))) →
      (computeMetricsT ts).1.max_drawdown = 0) :=
  ⟨maxDrawdownOf_eq _, maxDrawdownOf_nonneg _, fun h => maxDrawdownOf_of_chain _ h⟩

/-- Witness for C5 at Scenario B, whose cumulative series `[100, 205, 303]`
is non-decreasing. -/
theorem claim_C5_witness : (computeMetricsT scenarioB).1.max_drawdown = 0 := by
  apply (claim_C5 scenarioB).2.2
  rw [seriesOf_scenarioB]
  have hc : cums [100, 105, 98] = [(100 : ℚ), 205, 303] := by
    norm_num [cums, cumsFrom]
  rw [hc]
  norm_num [List.chain'_cons]

/-- Counterexample to C6 as stated: two equal-notional trades on two
different days give a two-point daily series with volatility `0`, so
volatility `0` does not happen exactly when the series has at most one
point. -/
theorem claim_C6_counterexample :
    (computeMetricsT constantTrades).1.volatility = 0 ∧
    (computeMetricsT constantTrades).2.length = 2 := by
  constructor
  · show stdOf (seriesOf (buildDailyT constantTrades)) = 0
    rw [stdOf]
    have hv : varianceOf (seriesOf (buildDailyT constantTrades)) = 0 := by
      rw [seriesOf_constant]
      simp [varianceOf, meanOf, totalReturn]
    rw [hv]
    simp
  · show (dailyListOf (buildDailyT constantTrades)).length = 2
    rw [buildDailyT_constant]
    simp +decide [dailyListOf, daysOf, List.insertionSort, List.orderedInsert]

/-- C6 (amended): the volatility returned by `compute_metrics` is the square
root of the sample variance of the daily series (its square is the
variance), it is always non-negative, and it is `0` whenever the daily
series has at most one point — but it can also be `0` for longer constant
series, so "exactly when" fails. -/
theorem claim_C6 (ts : List Trade) :
    (computeMetricsT ts).1.volatility ^ 2 =
      ((varianceOf (seriesOf (buildDailyT ts)) : ℚ) : ℝ) ∧
    0 ≤ (computeMetricsT ts).1.volatility ∧
    ((computeMetricsT ts).2.length ≤ 1 → (computeMetricsT ts).1.volatility = 0) := by
  refine ⟨stdOf_sq _, stdOf_nonneg _, fun h => ?_⟩
  apply stdOf_of_short
  have h' : (dailyListOf (buildDailyT ts)).length ≤ 1 := h
  rw [dailyListOf_length] at h'
  exact h'

/-- Witness for C6 (amended) at the empty input. -/
theorem claim_C6_witness : (computeMetricsT ([] : List Trade)).1.volatility = 0 :=
  (claim_C6 []).2.2
    (by show (dailyListOf (buildDailyT [])).length ≤ 1
        rw [buildDailyT_nil]
        simp [dailyListOf, daysOf, List.insertionSort])

/-- Counterexample to C7 as stated: a single sell trade yields a non-empty
daily series whose only point is negative, so the win rate is `0` although
the daily series is not empty. -/
theorem claim_C7_counterexample :
    (computeMetricsT sellOnly).1.win_rate = 0 ∧
    (computeMetricsT sellOnly).2 ≠ [] := by
  constructor
  · show winRate (seriesOf (buildDailyT sellOnly)) = 0
    rw [seriesOf_sellOnly]
    norm_num [winRate, winsOf]
  · show dailyListOf (buildDailyT sellOnly) ≠ []
    rw [buildDailyT_sellOnly]
    simp [dailyListOf, daysOf, List.insertionSort]

/-- C7 (amended): the win rate returned by `compute_metrics` equals
`100 × wins / count` over the daily series, always lies in `[0, 100]`, and
is `0` exactly when no daily point is strictly positive — in particular
(but not only) when the daily series is empty. -/
theorem claim_C7 (ts : List Trade) :
    0 ≤ (computeMetricsT ts).1.win_rate ∧
    (computeMetricsT ts).1.win_rate ≤ 100 ∧
    ((computeMetricsT ts).1.win_rate = 0 ↔
      ∀ v ∈ seriesOf (buildDailyT ts), v ≤ 0) :=
  ⟨winRate_nonneg _, winRate_le_100 _, winRate_eq_zero_iff _⟩

/-- Witness for C7 (amended) at the empty input. -/
theorem claim_C7_witness : (computeMetricsT ([] : List Trade)).1.win_rate = 0 :=
  (claim_C7 []).2.2.mpr
    (by rw [buildDailyT_nil, seriesOf_nil]
        simp)

/-- C8: the daily series returned by `compute_metrics` is strictly
ascending in lexicographic string order, every date key is the canonical
rendering of a valid calendar date, and adjacent keys are also strictly
ascending chronologically when decoded — so lexicographic and chronological
order coincide and no date occurs twice. -/
theorem claim_C8 (ts : List Trade) :
    List.Chain'
      (fun a b => a < b ∧
        ∀ ta tb, parseIsoDateChars a.data = some ta →
          parseIsoDateChars b.data = some tb → dateLt ta tb)
      ((computeMetricsT ts).2.map Prod.fst) ∧
    ∀ k ∈ (computeMetricsT ts).2.map Prod.fst,
      ∃ t : Date, validDate t = true ∧ k = dateToIso t := by
  have hdays : (computeMetricsT ts).2.map Prod.fst = daysOf (buildDailyT ts) :=
    dailyListOf_map_fst _
  rw [hdays]
  have hnd : (daysOf (buildDailyT ts)).Nodup :=
    daysOf_nodup _ (nodup_keys_buildDailyT ts)
  have hsorted : List.Sorted (· < ·) (daysOf (buildDailyT ts)) :=
    (daysOf_sorted _).lt_of_le hnd
  have hdates : ∀ k ∈ daysOf (buildDailyT ts),
      ∃ t : Date, validDate t = true ∧ k = dateToIso t := by
    intro k hk
    exact keys_are_dates ts k ((mem_daysOf _ k).mp hk)
  refine ⟨?_, hdates⟩
  apply List.Pairwise.chain'
  apply List.Pairwise.imp_of_mem ?_ hsorted
  intro a b ha hb hab
  refine ⟨hab, fun ta tb hpa hpb => ?_⟩
  obtain ⟨t1, hv1, rfl⟩ := hdates a ha
  obtain ⟨t2, hv2, rfl⟩ := hdates b hb
  rw [parseIso_dateToIso hv1] at hpa
  rw [parseIso_dateToIso hv2] at hpb
  cases hpa
  cases hpb
  exact (dateToIso_lt_iff hv1 hv2).mp hab

/-- Witness for C8 at Scenario B: its first output date decodes to the
valid date (2024, 1, 1). -/
theorem claim_C8_witness :
    ∃ t : Date, validDate t = true ∧ "2024-01-01" = dateToIso t :=
  (claim_C8 scenarioB).2 "2024-01-01"
    (by show "2024-01-01" ∈ (dailyListOf (buildDailyT scenarioB)).map Prod.fst
        rw [buildDailyT_scenarioB]
        simp +decide [dailyListOf, daysOf, List.insertionSort, List.orderedInsert])

/-- C9: for a non-empty daily series the forecast is the arithmetic mean of
the last `min(3, length)` points' P&L values; for an empty series the
forecast is absent (`Option.none`), not zero, and the insight message then
ends with the explicit insufficient-data phrase instead of a projection;
for Scenario B the forecast is `101` and the total return `303`. -/
theorem claim_C9 :
    (∀ daily : List (String × ℚ), daily ≠ [] →
        forecastOf daily =
          some ((lastSlice3 daily).sum / ((min 3 daily.length : ℕ) : ℚ)) ∧
        (lastSlice3 daily).length = min 3 daily.length) ∧
    forecastOf ([] : List (String × ℚ)) = Option.none ∧
    (∀ (wrS sS mddS fS : String) (daily : List (String × ℚ)), daily = [] →
        ∃ p, insightMessage wrS sS mddS fS (forecastOf daily) =
          p ++ "Insufficient data for projection.") ∧
    forecastOf (computeMetricsT scenarioB).2 = some 101 ∧
    (computeMetricsT scenarioB).1.total_return = 303 := by
  refine ⟨?_, rfl, ?_, ?_, ?_⟩
  · intro daily hne
    have hlen := lastSlice3_length daily
    refine ⟨?_, hlen⟩
    rw [forecastOf, if_neg (lastSlice3_ne_nil hne), hlen]
  · intro wrS sS mddS fS daily hnil
    subst hnil
    exact ⟨"Your win rate is " ++ wrS ++ "%. " ++ "Estimated Sharpe " ++ sS ++
      ". " ++ "Max drawdown observed " ++ mddS ++ ". ", rfl⟩
  · show forecastOf (dailyListOf (buildDailyT scenarioB)) = some 101
    have hdl : dailyListOf (buildDailyT scenarioB) =
        [("2024-01-01", 100), ("2024-01-02", 105), ("2024-01-03", 98)] := by
      rw [buildDailyT_scenarioB]
      simp +decide [dailyListOf, daysOf, List.insertionSort, List.orderedInsert,
        dictGet]
    rw [hdl]
    simp [forecastOf, lastSlice3]
    norm_num
  · show totalReturn (seriesOf (buildDailyT scenarioB)) = 303
    rw [seriesOf_scenarioB]
    norm_num [totalReturn]

/-- Witness for C9 at a one-point series and the empty series. -/
theorem claim_C9_witness :
    forecastOf [("2024-01-05", (5 : ℚ))] =
      some ((lastSlice3 [("2024-01-05", (5 : ℚ))]).sum /
        ((min 3 (List.length [("2024-01-05", (5 : ℚ))]) : ℕ) : ℚ)) ∧
    ∃ p, insightMessage "48.0" "0.0" "0.0" "101.00"
        (forecastOf ([] : List (String × ℚ))) =
      p ++ "Insufficient data for projection." :=
  ⟨(claim_C9.1 _ (by simp)).1, claim_C9.2.2.1 _ _ _ _ [] rfl⟩

end TradingAnalyst
